import Mathlib

/-!
# EcoFlow: shallow embedding and verification

Shallow embedding of the EcoFlow traffic pipeline:

* `app.py` — per-road phase offset (`phase_offset`) and the traffic-light
  state machine (`simulate_traffic_light`);
* `extract_roads_zones.py` — OSM road parsing (`parse_osm_roads`), the
  grid zone partitioner (`partition` / `makeZones`) and centroid-based zone
  assignment (`assign_zone`);
* `process.py` — congestion clamping (`clip`) and per-zone mean
  aggregation (`zoneCongestion`).

Machine floats are modelled as exact rationals (decimal literals such as
`0.7` are written `mkRat 7 10`); Python dict lookups that can raise
`KeyError` are modelled as `Option`; exceptions that escape a function are
modelled as `Except`.
-/

namespace EcoFlow

/-! ## app.py: SignalPhaseEngine -/

/-- The three light states returned by `simulate_traffic_light`. -/
inductive Phase where
  | red
  | yellow
  | green
deriving DecidableEq, Repr

/-- Modelled from the spec: CPython's builtin `hash` applied to a string road
identifier, which is what `phase_offset` in `app.py` calls. The spec records
that the language's default string hash is process-randomized (salted by a
per-process seed, `PYTHONHASHSEED`); the salting is modelled by the explicit
`seed` parameter feeding a 64-bit mixing fold over the characters. The claims
depend only on the hash being a function of both the string and the
per-process seed. -/
def pyHash (seed : ℕ) (s : String) : ℕ :=
  s.data.foldl (fun h c => (h * 31 + c.toNat) % 2 ^ 64) seed

/-- Source `app.py` lines 124–125: `def phase_offset(road_id, cycle_length=12):
return hash(road_id) % cycle_length`. The `seed` parameter is the per-process
hash seed of the modelled builtin `hash`. -/
def phase_offset (seed : ℕ) (road_id : String) (cycle_length : ℕ := 12) : ℕ :=
  pyHash seed road_id % cycle_length

/-- Source `app.py` lines 128–151: the traffic-light state machine.
Congestion is an exact rational in place of a Python float (`mkRat 7 10` is
the literal `0.7`, `mkRat 3 10` is `0.3`); `tick` and `offset` are naturals. -/
def simulate_traffic_light (congestion : ℚ) (tick offset : ℕ) : Phase :=
  let cycle_length := 12
  let pos_in_cycle := (tick + offset) % cycle_length
  if congestion > mkRat 7 10 then
    if pos_in_cycle < 8 then .red
    else if pos_in_cycle < 10 then .yellow
    else .green
  else if congestion > mkRat 3 10 then
    if pos_in_cycle < 5 then .red
    else if pos_in_cycle < 7 then .yellow
    else .green
  else
    if pos_in_cycle < 3 then .red
    else if pos_in_cycle < 5 then .yellow
    else .green

/-! ## extract_roads_zones.py: parsing, partitioning, assignment -/

/-- One OSM `way` element: its id attribute, its tag key/value pairs, and the
ordered list of node references (`nd` elements). -/
structure Way where
  id : String
  tags : List (String × String)
  nds : List String
deriving DecidableEq, Repr

/-- One extracted road record as built by `parse_osm_roads`: way id, the
value of its `highway` tag, and the line geometry. -/
structure ParsedRoad where
  id : String
  highway : String
  geometry : List (ℚ × ℚ)
deriving DecidableEq, Repr

/-- Source `extract_roads_zones.py` line 20: the list comprehension
`[nodes[nd] for nd in nds]`. A missing node id raises `KeyError`, modelled as
`none`. -/
def coordsOf (nodes : List (String × (ℚ × ℚ))) : List String → Option (List (ℚ × ℚ))
  | [] => some []
  | ref :: rest =>
    match nodes.lookup ref with
    | none => none
    | some c => (coordsOf nodes rest).map (fun cs => c :: cs)

/-- Shapely `LineString` construction (`extract_roads_zones.py` line 21): a
coordinate list of length exactly 1 raises (shapely requires 0 or at least 2
coordinate tuples); any other list is accepted. The raised exception is a
`ValueError`-class error, not a `KeyError`. -/
def lineString (coords : List (ℚ × ℚ)) : Except String (List (ℚ × ℚ)) :=
  if coords.length = 1 then
    .error "LineStrings must have at least 2 coordinate tuples"
  else
    .ok coords

/-- Source `extract_roads_zones.py` lines 8–28, `parse_osm_roads`: iterate
the ways; for each way carrying a `highway` tag look up its node coordinates
(`except KeyError: continue` skips a way with a missing node) and build a
`LineString`. The `LineString` error is not caught by the `except KeyError`
handler, so it propagates and aborts the whole parse, which the `Except`
result models. -/
def parse_osm_roads (nodes : List (String × (ℚ × ℚ))) :
    List Way → Except String (List ParsedRoad)
  | [] => .ok []
  | w :: ws =>
    match w.tags.lookup "highway" with
    | none => parse_osm_roads nodes ws
    | some hw =>
      match coordsOf nodes w.nds with
      | none => parse_osm_roads nodes ws
      | some coords =>
        match lineString coords with
        | .error e => .error e
        | .ok line =>
          (parse_osm_roads nodes ws).map
            (fun rs => { id := w.id, highway := hw, geometry := line } :: rs)

/-- Source `extract_roads_zones.py` lines 64–65: the points of
`np.linspace(a, b, n + 1)`; grid point `i` of the subdivision of `[a, b]`
into `n` equal cells. -/
def linPt (a b : ℚ) (n : ℕ) (i : ℕ) : ℚ :=
  a + i * ((b - a) / n)

/-- One grid zone: its id and its axis-aligned rectangle. The source stores
the rectangle as a shapely `Polygon` over the four corner points
`(x_i, y_j), (x_{i+1}, y_j), (x_{i+1}, y_{j+1}), (x_i, y_{j+1})`; the
embedding keeps the defining extents. -/
structure Zone where
  zone_id : String
  xmin : ℚ
  ymin : ℚ
  xmax : ℚ
  ymax : ℚ
deriving DecidableEq, Repr

/-- Source `extract_roads_zones.py` lines 71–77: the zone built for grid cell
`(i, j)` of the `nx × ny` subdivision of `[a, b] × [c, d]`, with id
`z{i}_{j}`. -/
def mkZone (a c b d : ℚ) (nx ny i j : ℕ) : Zone :=
  { zone_id := "z" ++ toString i ++ "_" ++ toString j
    xmin := linPt a b nx i
    ymin := linPt c d ny j
    xmax := linPt a b nx (i + 1)
    ymax := linPt c d ny (j + 1) }

/-- Source `extract_roads_zones.py` lines 68–78: the zone generation loop,
`for i in range(num_cells_x): for j in range(num_cells_y): zones.append(...)`. -/
def makeZones (a c b d : ℚ) (nx ny : ℕ) : List Zone :=
  (List.range nx).flatMap fun i =>
    (List.range ny).map fun j => mkZone a c b d nx ny i j

/-- Source `extract_roads_zones.py` lines 58–78 as one function of the
bounding box, buffer and resolution: expand the bbox by `buffer` on every
side, then build the `nx × ny` zone grid over the expanded bbox. The script
instantiates this with `buffer = 0.01` and `nx = ny = 10`; no validation of
the bbox or the resolution is performed anywhere. -/
def partition (minx miny maxx maxy buffer : ℚ) (nx ny : ℕ) : List Zone :=
  makeZones (minx - buffer) (miny - buffer) (maxx + buffer) (maxy + buffer) nx ny

/-- Shapely containment `zone.geometry.contains(point)` for an axis-aligned
rectangular polygon: true exactly when the point lies in the open interior.
Shapely `contains` is boundary-exclusive — a point on an edge of the polygon
is not contained. -/
def Zone.contains (z : Zone) (p : ℚ × ℚ) : Bool :=
  decide (z.xmin < p.1) && decide (p.1 < z.xmax) &&
    decide (z.ymin < p.2) && decide (p.2 < z.ymax)

/-- Source `extract_roads_zones.py` lines 31–35, `assign_zone`: walk the
zones in generation order and return the `zone_id` of the first zone whose
polygon contains the point, `None` when no zone contains it. -/
def assign_zone (point : ℚ × ℚ) : List Zone → Option String
  | [] => none
  | z :: zs => if z.contains point then some z.zone_id else assign_zone point zs

/-! ## process.py: clamping and aggregation -/

/-- Source `process.py` line 48: `np.clip(pred_roads, 0, 1)` applied to one
predictor output value; NumPy clips as `min(max(x, lo), hi)`. -/
def clip (x lo hi : ℚ) : ℚ :=
  min (max x lo) hi

/-- One road row of the congestion table: id, (clamped) congestion score and
the optional assigned zone id (`None`/NaN models a road outside every zone). -/
structure Road where
  id : String
  congestion : ℚ
  zone_id : Option String
deriving DecidableEq, Repr

/-- The group of roads that `roads_gdf.groupby('zone_id')` collects for key
`zid`: pandas `groupby` drops null keys, so exactly the roads whose `zone_id`
equals `some zid`. -/
def roadsInZone (roads : List Road) (zid : String) : List Road :=
  roads.filter fun r => r.zone_id == some zid

/-- Source `process.py` lines 55–59: the congestion value the zone table ends
up with for zone `zid` — the `groupby('zone_id')['congestion'].mean()` of its
assigned roads, and `0` via `fillna(0)` when the left merge finds no group
for the zone. -/
def zoneCongestion (roads : List Road) (zid : String) : ℚ :=
  let rs := roadsInZone roads zid
  if rs.isEmpty then 0 else (rs.map Road.congestion).sum / rs.length

/-! ## Concrete OSM input used to exercise `parse_osm_roads` -/

/-- Three nodes of a small OSM file. -/
def demoNodes : List (String × (ℚ × ℚ)) :=
  [("n1", (0, 0)), ("n2", (0, 1)), ("n3", (1, 1))]

/-- Three highway ways over `demoNodes`: `w1` and `w3` are well-formed,
`w2` references a single node, so its coordinate list has length 1. -/
def demoWays : List Way :=
  [{ id := "w1", tags := [("highway", "residential")], nds := ["n1", "n2"] },
   { id := "w2", tags := [("highway", "residential")], nds := ["n3"] },
   { id := "w3", tags := [("highway", "residential")], nds := ["n1", "n3"] }]

/-! ## Theorems -/

/-- Helper: the red/yellow/green `if` chain of `simulate_traffic_light`
classifies a cycle position `p < 12` by the two thresholds `r ≤ y ≤ 12`. -/
lemma phase_ifChain (p r y : ℕ) (hry : r ≤ y) (hy12 : y ≤ 12) (hp : p < 12) :
    ((if p < r then Phase.red else if p < y then Phase.yellow else Phase.green) = Phase.red
        ↔ p < r) ∧
    ((if p < r then Phase.red else if p < y then Phase.yellow else Phase.green) = Phase.yellow
        ↔ r ≤ p ∧ p < y) ∧
    ((if p < r then Phase.red else if p < y then Phase.yellow else Phase.green) = Phase.green
        ↔ y ≤ p ∧ p < 12) := by
  refine ⟨?_, ?_, ?_⟩ <;> split_ifs with h1 h2 <;> simp_all <;> omega

/-- C1: the source's `phase_offset` is `hash(road_id) % 12` with the builtin
process-salted string hash, so it is a function of the per-process hash seed:
two processes with different seeds obtain different offsets for the same road
id `"42"` (here `6` and `7`), contradicting the required cross-process
stability; each offset does lie in `[0, 12)`. -/
theorem phase_offset_seed_dependent :
    phase_offset 0 "42" = 6 ∧ phase_offset 1 "42" = 7 ∧
      phase_offset 0 "42" ≠ phase_offset 1 "42" := by
  refine ⟨by decide, by decide, by decide⟩

/-- C2: for every congestion value, tick and offset, the signal phase is
determined by `position = (tick + offset) % 12` and the three congestion
bands with strict comparisons (`mkRat 7 10` and `mkRat 3 10` are the
thresholds `0.7` and `0.3`): high congestion gives red on `[0,8)`, yellow on
`[8,10)`, green on `[10,12)`; medium gives red on `[0,5)`, yellow on `[5,7)`,
green on `[7,12)`; low (congestion `≤ 0.3`, including exactly `0.3` and
`0.7` for the medium band) gives red on `[0,3)`, yellow on `[3,5)`, green on
`[5,12)`. -/
theorem signal_phase_bands (congestion : ℚ) (tick offset : ℕ) :
    (mkRat 7 10 < congestion →
      ((simulate_traffic_light congestion tick offset = .red
          ↔ (tick + offset) % 12 < 8) ∧
       (simulate_traffic_light congestion tick offset = .yellow
          ↔ 8 ≤ (tick + offset) % 12 ∧ (tick + offset) % 12 < 10) ∧
       (simulate_traffic_light congestion tick offset = .green
          ↔ 10 ≤ (tick + offset) % 12 ∧ (tick + offset) % 12 < 12))) ∧
    (mkRat 3 10 < congestion → congestion ≤ mkRat 7 10 →
      ((simulate_traffic_light congestion tick offset = .red
          ↔ (tick + offset) % 12 < 5) ∧
       (simulate_traffic_light congestion tick offset = .yellow
          ↔ 5 ≤ (tick + offset) % 12 ∧ (tick + offset) % 12 < 7) ∧
       (simulate_traffic_light congestion tick offset = .green
          ↔ 7 ≤ (tick + offset) % 12 ∧ (tick + offset) % 12 < 12))) ∧
    (congestion ≤ mkRat 3 10 →
      ((simulate_traffic_light congestion tick offset = .red
          ↔ (tick + offset) % 12 < 3) ∧
       (simulate_traffic_light congestion tick offset = .yellow
          ↔ 3 ≤ (tick + offset) % 12 ∧ (tick + offset) % 12 < 5) ∧
       (simulate_traffic_light congestion tick offset = .green
          ↔ 5 ≤ (tick + offset) % 12 ∧ (tick + offset) % 12 < 12))) := by
  have hp : (tick + offset) % 12 < 12 := Nat.mod_lt _ (by norm_num)
  refine ⟨fun hc => ?_, fun hc1 hc2 => ?_, fun hc => ?_⟩
  · have : simulate_traffic_light congestion tick offset =
        if (tick + offset) % 12 < 8 then Phase.red
        else if (tick + offset) % 12 < 10 then Phase.yellow
        else Phase.green := by
      simp only [simulate_traffic_light]
      rw [if_pos hc]
    rw [this]
    exact phase_ifChain _ 8 10 (by omega) (by omega) hp
  · have : simulate_traffic_light congestion tick offset =
        if (tick + offset) % 12 < 5 then Phase.red
        else if (tick + offset) % 12 < 7 then Phase.yellow
        else Phase.green := by
      simp only [simulate_traffic_light]
      rw [if_neg (not_lt.mpr hc2), if_pos hc1]
    rw [this]
    exact phase_ifChain _ 5 7 (by omega) (by omega) hp
  · have hc7 : ¬ (mkRat 7 10 < congestion) := by
      intro h
      have : mkRat 3 10 < mkRat 7 10 := by decide
      exact absurd (lt_of_lt_of_le this (le_of_lt h)) (not_lt.mpr hc)
    have hc3 : ¬ (mkRat 3 10 < congestion) := not_lt.mpr hc
    have : simulate_traffic_light congestion tick offset =
        if (tick + offset) % 12 < 3 then Phase.red
        else if (tick + offset) % 12 < 5 then Phase.yellow
        else Phase.green := by
      simp only [simulate_traffic_light]
      rw [if_neg hc7, if_neg hc3]
    rw [this]
    exact phase_ifChain _ 3 5 (by omega) (by omega) hp

/-- Witness for C2 at the spec's own example: congestion `0.8`, tick `8`,
offset `0` gives `yellow` (position 8, high band). -/
theorem signal_phase_bands_example :
    simulate_traffic_light (mkRat 8 10) 8 0 = .yellow :=
  ((signal_phase_bands (mkRat 8 10) 8 0).1 (by decide)).2.1.mpr (by decide)

/-- Helper: `clip x 0 1` is nonnegative. -/
lemma clip_nonneg (x : ℚ) : 0 ≤ clip x 0 1 :=
  le_min (le_max_right x 0) (by norm_num)

/-- Helper: `clip x 0 1` is at most one. -/
lemma clip_le_one (x : ℚ) : clip x 0 1 ≤ 1 :=
  min_le_right _ _

/-- C6: every predictor output is clamped into `[0,1]` before storage: a
value below `0` is stored as `0`, a value above `1` as `1`, a value already
in `[0,1]` unchanged, and the result always lies in `[0,1]` (no value is
rejected — `clip` is total). -/
theorem predictor_clamp (x : ℚ) :
    (x < 0 → clip x 0 1 = 0) ∧
    (1 < x → clip x 0 1 = 1) ∧
    (0 ≤ x → x ≤ 1 → clip x 0 1 = x) ∧
    0 ≤ clip x 0 1 ∧ clip x 0 1 ≤ 1 := by
  refine ⟨fun h => ?_, fun h => ?_, fun h0 h1 => ?_, clip_nonneg x, clip_le_one x⟩
  · rw [clip, max_eq_right h.le, min_eq_left (by norm_num)]
  · rw [clip, max_eq_left (by linarith), min_eq_right h.le]
  · rw [clip, max_eq_left h0, min_eq_left h1]

/-- Witness for C6 at the spec's examples: `-0.1` is stored as `0.0` and
`1.3` as `1.0`. -/
theorem predictor_clamp_example :
    clip (mkRat (-1) 10) 0 1 = 0 ∧ clip (mkRat 13 10) 0 1 = 1 :=
  ⟨(predictor_clamp (mkRat (-1) 10)).1 (by decide),
   (predictor_clamp (mkRat 13 10)).2.1 (by decide)⟩

/-- Helper: a road whose `zone_id` is null never enters any zone's group. -/
lemma roadsInZone_cons_none (roads : List Road) (zid : String) (r : Road)
    (hr : r.zone_id = none) : roadsInZone (r :: roads) zid = roadsInZone roads zid := by
  simp [roadsInZone, List.filter, hr]

/-- C5: a zone's aggregated congestion is the arithmetic mean of the
congestion of the roads assigned to it (stated multiplicatively:
`mean * count = sum` for a nonempty group); a zone with no assigned roads
gets congestion `0`; a road with null `zone_id` is excluded from every zone's
group and leaves every zone's aggregate unchanged. The final conjunct is the
spec's example: roads with congestion `[0.2, 0.4, 0.9]` aggregate to `0.5`. -/
theorem zone_mean_aggregation (roads : List Road) (zid : String) :
    (roadsInZone roads zid ≠ [] →
      zoneCongestion roads zid * (roadsInZone roads zid).length
        = ((roadsInZone roads zid).map Road.congestion).sum) ∧
    (roadsInZone roads zid = [] → zoneCongestion roads zid = 0) ∧
    (∀ r : Road, r.zone_id = none →
      roadsInZone (r :: roads) zid = roadsInZone roads zid ∧
      zoneCongestion (r :: roads) zid = zoneCongestion roads zid) ∧
    zoneCongestion
      [{ id := "a", congestion := mkRat 2 10, zone_id := some "z" },
       { id := "b", congestion := mkRat 4 10, zone_id := some "z" },
       { id := "c", congestion := mkRat 9 10, zone_id := some "z" },
       { id := "d", congestion := mkRat 6 10, zone_id := none }] "z" = mkRat 1 2 := by
  refine ⟨fun h => ?_, fun h => ?_, fun r hr => ⟨roadsInZone_cons_none roads zid r hr, ?_⟩, ?_⟩
  · have hne : ¬ (roadsInZone roads zid).isEmpty = true := by
      simpa [List.isEmpty_iff] using h
    have hlen : ((roadsInZone roads zid).length : ℚ) ≠ 0 := by
      exact_mod_cast fun h0 => h (List.length_eq_zero.mp (by exact_mod_cast h0))
    rw [zoneCongestion]
    simp only [if_neg hne]
    exact div_mul_cancel₀ _ hlen
  · rw [zoneCongestion]
    simp [h]
  · rw [zoneCongestion, zoneCongestion, roadsInZone_cons_none roads zid r hr]
  · rw [zoneCongestion]
    norm_num [roadsInZone, List.filter, Rat.mkRat_eq_div]

/-- Witness for C5: the mean characterization applied to the example group
(three roads of congestion `0.2`, `0.4`, `0.9` assigned to zone `"z"`). -/
theorem zone_mean_aggregation_example :
    zoneCongestion
        [{ id := "a", congestion := mkRat 2 10, zone_id := some "z" },
         { id := "b", congestion := mkRat 4 10, zone_id := some "z" },
         { id := "c", congestion := mkRat 9 10, zone_id := some "z" }] "z" *
      (roadsInZone
        [{ id := "a", congestion := mkRat 2 10, zone_id := some "z" },
         { id := "b", congestion := mkRat 4 10, zone_id := some "z" },
         { id := "c", congestion := mkRat 9 10, zone_id := some "z" }] "z").length
    = ((roadsInZone
        [{ id := "a", congestion := mkRat 2 10, zone_id := some "z" },
         { id := "b", congestion := mkRat 4 10, zone_id := some "z" },
         { id := "c", congestion := mkRat 9 10, zone_id := some "z" }] "z").map
          Road.congestion).sum :=
  (zone_mean_aggregation _ "z").1 (by decide)

/-- Helper: a list sum of elements of `[0,1]` is between `0` and the length. -/
lemma sum_in_unit_bounds (l : List ℚ) (h : ∀ x ∈ l, 0 ≤ x ∧ x ≤ 1) :
    0 ≤ l.sum ∧ l.sum ≤ l.length := by
  induction l with
  | nil => simp
  | cons x xs ih =>
    have hx := h x (List.mem_cons_self x xs)
    have hxs := ih fun y hy => h y (List.mem_cons_of_mem x hy)
    simp only [List.sum_cons, List.length_cons]
    constructor
    · linarith [hxs.1]
    · push_cast
      linarith [hxs.2]

/-- C9: after clamping and aggregation every congestion value lies in
`[0,1]`: every clamped predictor output is in `[0,1]`, and whenever all road
congestion values are in `[0,1]`, every zone's aggregate — the group mean,
or the `0` default for a road-less zone — is in `[0,1]`. -/
theorem congestion_unit_interval (preds : List ℚ) (roads : List Road) (zid : String)
    (h : ∀ r ∈ roads, 0 ≤ r.congestion ∧ r.congestion ≤ 1) :
    (∀ c ∈ preds.map fun x => clip x 0 1, 0 ≤ c ∧ c ≤ 1) ∧
    0 ≤ zoneCongestion roads zid ∧ zoneCongestion roads zid ≤ 1 := by
  refine ⟨fun c hc => ?_, ?_⟩
  · obtain ⟨x, -, rfl⟩ := List.mem_map.mp hc
    exact ⟨clip_nonneg x, clip_le_one x⟩
  · rw [zoneCongestion]
    by_cases he : (roadsInZone roads zid).isEmpty
    · simp [he]
    · simp only [if_neg he]
      have hmem : ∀ x ∈ (roadsInZone roads zid).map Road.congestion, 0 ≤ x ∧ x ≤ 1 := by
        intro x hx
        obtain ⟨r, hr, rfl⟩ := List.mem_map.mp hx
        exact h r (List.mem_filter.mp hr).1
      obtain ⟨hs0, hs1⟩ := sum_in_unit_bounds _ hmem
      have hlenpos : (0 : ℚ) < (roadsInZone roads zid).length := by
        have : roadsInZone roads zid ≠ [] := by
          simpa [List.isEmpty_iff] using he
        have := List.length_pos.mpr this
        exact_mod_cast this
      constructor
      · positivity
      · rw [div_le_one hlenpos]
        simpa using hs1

/-- Witness for C9: one road of congestion `0.5` in zone `"z"` and one
out-of-range predictor output `1.3`. -/
theorem congestion_unit_interval_example :
    (∀ c ∈ [mkRat 13 10].map fun x => clip x 0 1, 0 ≤ c ∧ c ≤ 1) ∧
    0 ≤ zoneCongestion [{ id := "a", congestion := mkRat 1 2, zone_id := some "z" }] "z" ∧
    zoneCongestion [{ id := "a", congestion := mkRat 1 2, zone_id := some "z" }] "z" ≤ 1 :=
  congestion_unit_interval [mkRat 13 10]
    [{ id := "a", congestion := mkRat 1 2, zone_id := some "z" }] "z" (by decide)

/-- Helper: `assign_zone` returns `none` exactly when no zone in the list
contains the point. -/
lemma assign_zone_none_iff (p : ℚ × ℚ) (zs : List Zone) :
    assign_zone p zs = none ↔ ∀ z ∈ zs, z.contains p = false := by
  induction zs with
  | nil => simp [assign_zone]
  | cons z zs ih =>
    cases hz : z.contains p
    · simp [assign_zone, hz, ih]
    · simp [assign_zone, hz]

/-- Helper: `assign_zone` returns `some zid` exactly when the first zone in
list order that contains the point has id `zid`. -/
lemma assign_zone_some_iff (p : ℚ × ℚ) (zs : List Zone) (zid : String) :
    assign_zone p zs = some zid ↔
      ∃ pre z post, zs = pre ++ z :: post ∧ z.contains p = true ∧
        z.zone_id = zid ∧ ∀ w ∈ pre, w.contains p = false := by
  induction zs with
  | nil =>
    constructor
    · intro h
      simp [assign_zone] at h
    · rintro ⟨pre, z, post, h, -, -, -⟩
      exact absurd h (by cases pre <;> simp)
  | cons w ws ih =>
    cases hw : w.contains p
    · rw [assign_zone, if_neg (by simp [hw]), ih]
      constructor
      · rintro ⟨pre, z, post, heq, hc, hid, hpre⟩
        refine ⟨w :: pre, z, post, by simp [heq], hc, hid, ?_⟩
        intro w' hw'
        rcases List.mem_cons.mp hw' with rfl | hmem
        · exact hw
        · exact hpre w' hmem
      · rintro ⟨pre, z, post, heq, hc, hid, hpre⟩
        cases pre with
        | nil =>
          simp only [List.nil_append, List.cons.injEq] at heq
          obtain ⟨rfl, rfl⟩ := heq
          rw [hw] at hc
          cases hc
        | cons q qs =>
          simp only [List.cons_append, List.cons.injEq] at heq
          obtain ⟨rfl, rfl⟩ := heq
          exact ⟨qs, z, post, rfl, hc, hid, fun w' h' => hpre w' (List.mem_cons_of_mem _ h')⟩
    · rw [assign_zone, if_pos hw]
      constructor
      · intro h
        exact ⟨[], w, ws, rfl, hw, Option.some.inj h, by simp⟩
      · rintro ⟨pre, z, post, heq, hc, hid, hpre⟩
        cases pre with
        | nil =>
          simp only [List.nil_append, List.cons.injEq] at heq
          obtain ⟨rfl, rfl⟩ := heq
          rw [hid]
        | cons q qs =>
          simp only [List.cons_append, List.cons.injEq] at heq
          obtain ⟨rfl, -⟩ := heq
          have hq := hpre w (List.mem_cons_self _ _)
          rw [hw] at hq
          cases hq

/-- C4: `assign_zone` tests the point against the zone polygons in list
(generation) order and returns the `zone_id` of the first zone whose polygon
contains the point; when no zone contains it the result is `none` — an
ordinary value, not an error. -/
theorem assign_zone_first_match (p : ℚ × ℚ) (zs : List Zone) :
    (∀ zid, assign_zone p zs = some zid ↔
      ∃ pre z post, zs = pre ++ z :: post ∧ z.contains p = true ∧
        z.zone_id = zid ∧ ∀ w ∈ pre, w.contains p = false) ∧
    (assign_zone p zs = none ↔ ∀ z ∈ zs, z.contains p = false) :=
  ⟨fun zid => assign_zone_some_iff p zs zid, assign_zone_none_iff p zs⟩

/-- Witness for C4: the point `(0.5, 0.5)` is contained in both listed
zones but is assigned to the first one in order. -/
theorem assign_zone_first_match_example :
    assign_zone (mkRat 1 2, mkRat 1 2)
      [{ zone_id := "z0_0", xmin := 0, ymin := 0, xmax := 1, ymax := 1 },
       { zone_id := "zBig", xmin := 0, ymin := 0, xmax := 2, ymax := 2 }] = some "z0_0" :=
  ((assign_zone_first_match (mkRat 1 2, mkRat 1 2)
      [{ zone_id := "z0_0", xmin := 0, ymin := 0, xmax := 1, ymax := 1 },
       { zone_id := "zBig", xmin := 0, ymin := 0, xmax := 2, ymax := 2 }]).1 "z0_0").mpr
    ⟨[], { zone_id := "z0_0", xmin := 0, ymin := 0, xmax := 1, ymax := 1 },
     [{ zone_id := "zBig", xmin := 0, ymin := 0, xmax := 2, ymax := 2 }],
     rfl, by decide, rfl, by simp⟩

/-- C7 (code-bug evidence): on an input whose second way references a single
node, `parse_osm_roads` returns the propagated `LineString` error — the whole
parse aborts and the following well-formed way `w3` is lost — instead of
skipping the bad record. Removing the bad way yields the two good roads, and
a way referencing a missing node id (the `KeyError` case) is skipped while
processing continues. -/
theorem short_way_aborts_parse :
    parse_osm_roads demoNodes demoWays =
      .error "LineStrings must have at least 2 coordinate tuples" ∧
    parse_osm_roads demoNodes
        [{ id := "w1", tags := [("highway", "residential")], nds := ["n1", "n2"] },
         { id := "w3", tags := [("highway", "residential")], nds := ["n1", "n3"] }] =
      .ok [{ id := "w1", highway := "residential", geometry := [(0, 0), (0, 1)] },
           { id := "w3", highway := "residential", geometry := [(0, 0), (1, 1)] }] ∧
    parse_osm_roads demoNodes
        [{ id := "w4", tags := [("highway", "residential")], nds := ["n1", "n9"] },
         { id := "w3", tags := [("highway", "residential")], nds := ["n1", "n3"] }] =
      .ok [{ id := "w3", highway := "residential", geometry := [(0, 0), (1, 1)] }] :=
  ⟨rfl, rfl, rfl⟩

/-- C8 (code-bug evidence): the partitioner performs no configuration
validation. A degenerate bounding box (all four bounds equal, buffer `0`)
is processed without error into `2 * 2` zero-area zones, and a grid
resolution of `0` columns silently yields an empty zone list instead of a
fatal configuration error. -/
theorem degenerate_config_not_rejected :
    (partition 5 5 5 5 0 2 2).length = 2 * 2 ∧
    (partition 5 5 5 5 0 2 2)[0]? =
      some { zone_id := "z0_0", xmin := 5, ymin := 5, xmax := 5, ymax := 5 } ∧
    partition 0 0 1 1 0 0 2 = [] := by
  refine ⟨?_, ?_, rfl⟩
  · norm_num [partition, makeZones, mkZone, linPt, List.range_succ]
  · norm_num [partition, makeZones, mkZone, linPt, List.range_succ]
    rfl

/-- Helper: the first grid point is the left endpoint. -/
lemma linPt_zero (a b : ℚ) (n : ℕ) : linPt a b n 0 = a := by
  simp [linPt]

/-- Helper: the last grid point of a subdivision into `n ≠ 0` cells is the
right endpoint. -/
lemma linPt_last (a b : ℚ) (n : ℕ) (hn : n ≠ 0) : linPt a b n n = b := by
  have h : (n : ℚ) ≠ 0 := Nat.cast_ne_zero.mpr hn
  field_simp [linPt]

/-- Helper: grid points are monotone in the index when `a ≤ b`. -/
lemma linPt_mono (a b : ℚ) (hab : a ≤ b) (n : ℕ) {i j : ℕ} (hij : i ≤ j) :
    linPt a b n i ≤ linPt a b n j := by
  have hw : 0 ≤ (b - a) / n := div_nonneg (by linarith) (Nat.cast_nonneg n)
  have hij' : (i : ℚ) ≤ j := Nat.cast_le.mpr hij
  have := mul_le_mul_of_nonneg_right hij' hw
  simpa [linPt] using this

/-- Helper: the grid points of the subinterval `[a, x_n]` of the `n + 1`-cell
subdivision, subdivided into `n` cells, are the first `n + 1` grid points of
the original subdivision. -/
lemma linPt_segment (a b : ℚ) (n : ℕ) (hn : n ≠ 0) (k : ℕ) :
    linPt a (linPt a b (n + 1) n) n k = linPt a b (n + 1) k := by
  have h1 : (n : ℚ) ≠ 0 := Nat.cast_ne_zero.mpr hn
  have h2 : ((n : ℚ) + 1) ≠ 0 := by positivity
  simp only [linPt]
  push_cast
  field_simp
  ring

/-- Helper: every point of `[a, b]` lies in some cell `[x_i, x_{i+1}]` of the
`n`-cell subdivision. -/
lemma exists_cell (n : ℕ) : 0 < n → ∀ a b p : ℚ, a ≤ b → a ≤ p → p ≤ b →
    ∃ i, i < n ∧ linPt a b n i ≤ p ∧ p ≤ linPt a b n (i + 1) := by
  induction n with
  | zero => omega
  | succ n ih =>
    intro _ a b p hab hap hpb
    by_cases hn0 : n = 0
    · subst hn0
      refine ⟨0, by omega, ?_, ?_⟩
      · rw [linPt_zero]
        exact hap
      · rw [linPt_last a b 1 one_ne_zero]
        exact hpb
    · have hmb : linPt a b (n + 1) n ≤ b := by
        have := linPt_mono a b hab (n + 1) (Nat.le_succ n)
        rwa [linPt_last a b (n + 1) (Nat.succ_ne_zero n)] at this
      have ham : a ≤ linPt a b (n + 1) n := by
        have := linPt_mono a b hab (n + 1) (Nat.zero_le n)
        rwa [linPt_zero] at this
      by_cases hpm : linPt a b (n + 1) n ≤ p
      · refine ⟨n, Nat.lt_succ_self n, hpm, ?_⟩
        rw [linPt_last a b (n + 1) (Nat.succ_ne_zero n)]
        exact hpb
      · obtain ⟨i, hi, h1, h2⟩ :=
          ih (Nat.pos_of_ne_zero hn0) a (linPt a b (n + 1) n) p ham hap
            (le_of_lt (not_le.mp hpm))
        rw [linPt_segment a b n hn0] at h1 h2
        exact ⟨i, Nat.lt_succ_of_lt hi, h1, h2⟩

/-- Helper: length of a two-level generation loop with `M` inner iterations
per outer iteration. -/
lemma grid_length {α : Type} (g : ℕ → ℕ → α) (N M : ℕ) :
    ((List.range N).flatMap fun i => (List.range M).map (g i)).length = N * M := by
  induction N with
  | zero => simp
  | succ n ih =>
    rw [List.range_succ, List.flatMap_append]
    simp [ih, Nat.succ_mul]

/-- Helper: element `i * M + j` of a two-level generation loop is the value
generated in outer iteration `i`, inner iteration `j`. -/
lemma grid_getElem {α : Type} (g : ℕ → ℕ → α) (N M i j : ℕ) (hi : i < N) (hj : j < M) :
    ((List.range N).flatMap fun i => (List.range M).map (g i))[i * M + j]? = some (g i j) := by
  induction N with
  | zero => omega
  | succ n ih =>
    rw [List.range_succ, List.flatMap_append, List.getElem?_append]
    rcases Nat.lt_or_ge i n with h | h
    · have hlt : i * M + j < n * M := by
        have h1 : i * M + j < i * M + M := by omega
        have h2 : i * M + M ≤ n * M := by
          rw [← Nat.succ_mul]
          exact Nat.mul_le_mul_right M h
        omega
      rw [if_pos (by rw [grid_length]; exact hlt)]
      exact ih h
    · have hieq : i = n := by omega
      subst hieq
      rw [grid_length]
      rw [if_neg (by omega)]
      have hsub : i * M + j - i * M = j := by omega
      rw [hsub]
      simp [List.getElem?_map, List.getElem?_range hj]

/-- Helper: the partitioner produces `nx * ny` zones. -/
lemma makeZones_length (a c b d : ℚ) (nx ny : ℕ) :
    (makeZones a c b d nx ny).length = nx * ny :=
  grid_length _ nx ny

/-- Helper: zone `(i, j)` sits at position `i * ny + j` of the generation
order. -/
lemma makeZones_getElem (a c b d : ℚ) (nx ny i j : ℕ) (hi : i < nx) (hj : j < ny) :
    (makeZones a c b d nx ny)[i * ny + j]? = some (mkZone a c b d nx ny i j) :=
  grid_getElem _ nx ny i j hi hj

/-- Helper: membership in the generated zone list. -/
lemma makeZones_mem_iff (a c b d : ℚ) (nx ny : ℕ) (z : Zone) :
    z ∈ makeZones a c b d nx ny ↔
      ∃ i j, i < nx ∧ j < ny ∧ z = mkZone a c b d nx ny i j := by
  simp only [makeZones, List.mem_flatMap, List.mem_map, List.mem_range]
  constructor
  · rintro ⟨i, hi, j, hj, rfl⟩
    exact ⟨i, j, hi, hj, rfl⟩
  · rintro ⟨i, j, hi, hj, rfl⟩
    exact ⟨i, hi, j, hj, rfl⟩

/-- Helper: strict interior containment in a generated zone, spelled out on
the grid points. -/
lemma mkZone_contains_iff (a c b d : ℚ) (nx ny i j : ℕ) (p : ℚ × ℚ) :
    (mkZone a c b d nx ny i j).contains p = true ↔
      linPt a b nx i < p.1 ∧ p.1 < linPt a b nx (i + 1) ∧
      linPt c d ny j < p.2 ∧ p.2 < linPt c d ny (j + 1) := by
  simp [Zone.contains, mkZone, and_assoc]

/-- C3: for a valid bounding box (positive extent after buffer expansion)
and positive `nx`, `ny`, the partitioner produces exactly `nx * ny` zones;
the zone generated for cell `(i, j)` sits at position `i * ny + j` and is the
rectangle `[x_i, x_{i+1}] × [y_j, y_{j+1}]` of the linear subdivision of the
expanded bbox, with id `z{i}_{j}`; the union of the closed rectangles is
exactly the expanded bbox; and the open interiors of distinct zones are
disjoint. -/
theorem partition_tiling (minx miny maxx maxy buffer : ℚ) (nx ny : ℕ)
    (hnx : 0 < nx) (hny : 0 < ny)
    (hx : minx - buffer < maxx + buffer) (hy : miny - buffer < maxy + buffer) :
    (partition minx miny maxx maxy buffer nx ny).length = nx * ny ∧
    (∀ i j, i < nx → j < ny →
      (partition minx miny maxx maxy buffer nx ny)[i * ny + j]? =
        some { zone_id := "z" ++ toString i ++ "_" ++ toString j
               xmin := linPt (minx - buffer) (maxx + buffer) nx i
               ymin := linPt (miny - buffer) (maxy + buffer) ny j
               xmax := linPt (minx - buffer) (maxx + buffer) nx (i + 1)
               ymax := linPt (miny - buffer) (maxy + buffer) ny (j + 1) }) ∧
    (∀ px py : ℚ,
      (minx - buffer ≤ px ∧ px ≤ maxx + buffer ∧
       miny - buffer ≤ py ∧ py ≤ maxy + buffer) ↔
      ∃ z ∈ partition minx miny maxx maxy buffer nx ny,
        z.xmin ≤ px ∧ px ≤ z.xmax ∧ z.ymin ≤ py ∧ py ≤ z.ymax) ∧
    (∀ i j i' j', i < nx → j < ny → i' < nx → j' < ny → (i, j) ≠ (i', j') →
      ∀ p : ℚ × ℚ,
        ¬((mkZone (minx - buffer) (miny - buffer) (maxx + buffer) (maxy + buffer)
              nx ny i j).contains p = true ∧
          (mkZone (minx - buffer) (miny - buffer) (maxx + buffer) (maxy + buffer)
              nx ny i' j').contains p = true)) := by
  have hab : minx - buffer ≤ maxx + buffer := le_of_lt hx
  have hcd : miny - buffer ≤ maxy + buffer := le_of_lt hy
  refine ⟨makeZones_length _ _ _ _ nx ny,
    fun i j hi hj => makeZones_getElem _ _ _ _ nx ny i j hi hj,
    fun px py => ?_, fun i j i' j' hi hj hi' hj' hne p => ?_⟩
  · constructor
    · rintro ⟨h1, h2, h3, h4⟩
      obtain ⟨i, hi, hx1, hx2⟩ := exists_cell nx hnx _ _ px hab h1 h2
      obtain ⟨j, hj, hy1, hy2⟩ := exists_cell ny hny _ _ py hcd h3 h4
      refine ⟨mkZone (minx - buffer) (miny - buffer) (maxx + buffer) (maxy + buffer)
          nx ny i j, ?_, ?_⟩
      · exact (makeZones_mem_iff _ _ _ _ nx ny _).mpr ⟨i, j, hi, hj, rfl⟩
      · exact ⟨hx1, hx2, hy1, hy2⟩
    · rintro ⟨z, hz, h1, h2, h3, h4⟩
      obtain ⟨i, j, hi, hj, rfl⟩ := (makeZones_mem_iff _ _ _ _ nx ny z).mp hz
      simp only [mkZone] at h1 h2 h3 h4
      have hxl : minx - buffer ≤ linPt (minx - buffer) (maxx + buffer) nx i := by
        have := linPt_mono (minx - buffer) (maxx + buffer) hab nx (Nat.zero_le i)
        rwa [linPt_zero] at this
      have hxr : linPt (minx - buffer) (maxx + buffer) nx (i + 1) ≤ maxx + buffer := by
        have := linPt_mono (minx - buffer) (maxx + buffer) hab nx (Nat.succ_le_of_lt hi)
        rwa [linPt_last _ _ nx (by omega)] at this
      have hyl : miny - buffer ≤ linPt (miny - buffer) (maxy + buffer) ny j := by
        have := linPt_mono (miny - buffer) (maxy + buffer) hcd ny (Nat.zero_le j)
        rwa [linPt_zero] at this
      have hyr : linPt (miny - buffer) (maxy + buffer) ny (j + 1) ≤ maxy + buffer := by
        have := linPt_mono (miny - buffer) (maxy + buffer) hcd ny (Nat.succ_le_of_lt hj)
        rwa [linPt_last _ _ ny (by omega)] at this
      exact ⟨le_trans hxl h1, le_trans h2 hxr, le_trans hyl h3, le_trans h4 hyr⟩
  · rintro ⟨hc1, hc2⟩
    rw [mkZone_contains_iff] at hc1 hc2
    have hij : i ≠ i' ∨ j ≠ j' := by
      rcases eq_or_ne i i' with rfl | h
      · rcases eq_or_ne j j' with rfl | h2
        · exact absurd rfl hne
        · exact Or.inr h2
      · exact Or.inl h
    rcases hij with h | h
    · rcases lt_or_gt_of_ne h with hlt | hgt
      · have := linPt_mono (minx - buffer) (maxx + buffer) hab nx
          (show i + 1 ≤ i' from hlt)
        linarith [hc1.2.1, hc2.1]
      · have := linPt_mono (minx - buffer) (maxx + buffer) hab nx
          (show i' + 1 ≤ i from hgt)
        linarith [hc2.2.1, hc1.1]
    · rcases lt_or_gt_of_ne h with hlt | hgt
      · have := linPt_mono (miny - buffer) (maxy + buffer) hcd ny
          (show j + 1 ≤ j' from hlt)
        linarith [hc1.2.2.2, hc2.2.2.1]
      · have := linPt_mono (miny - buffer) (maxy + buffer) hcd ny
          (show j' + 1 ≤ j from hgt)
        linarith [hc2.2.2.2, hc1.2.2.1]

/-- Witness for C3: the spec's own example grid, a 2×2 partition of the bbox
`(0,0)-(2,2)` with buffer `0`, has exactly `2 * 2` zones. -/
theorem partition_tiling_example :
    (partition 0 0 2 2 0 2 2).length = 2 * 2 :=
  (partition_tiling 0 0 2 2 0 2 2 (by norm_num) (by norm_num)
    (by norm_num) (by norm_num)).1

/-- C10: the containment predicate behind zone assignment is strict
(boundary-exclusive). Over any zone grid, a point whose x-coordinate is any
vertical grid line `x_k` (in particular a centroid exactly on the shared edge
of two horizontally adjacent zones, and the outer bbox edges `k = 0`,
`k = nx`) is assigned to no zone at all, and symmetrically for horizontal
grid lines; and whenever `assign_zone` does return a zone id, the point lies
strictly in that zone's interior. -/
theorem boundary_centroid_unassigned (minx miny maxx maxy buffer : ℚ) (nx ny : ℕ)
    (hx : minx - buffer ≤ maxx + buffer) (hy : miny - buffer ≤ maxy + buffer) :
    (∀ k py, k ≤ nx →
      assign_zone (linPt (minx - buffer) (maxx + buffer) nx k, py)
        (partition minx miny maxx maxy buffer nx ny) = none) ∧
    (∀ k px, k ≤ ny →
      assign_zone (px, linPt (miny - buffer) (maxy + buffer) ny k)
        (partition minx miny maxx maxy buffer nx ny) = none) ∧
    (∀ p zid, assign_zone p (partition minx miny maxx maxy buffer nx ny) = some zid →
      ∃ z ∈ partition minx miny maxx maxy buffer nx ny,
        z.zone_id = zid ∧ z.contains p = true) := by
  refine ⟨fun k py hk => ?_, fun k px hk => ?_, fun p zid h => ?_⟩
  · rw [assign_zone_none_iff]
    intro z hz
    obtain ⟨i, j, hi, hj, rfl⟩ := (makeZones_mem_iff _ _ _ _ nx ny z).mp hz
    rw [← Bool.not_eq_true, mkZone_contains_iff]
    rintro ⟨h1, h2, -, -⟩
    rcases le_or_lt k i with hki | hik
    · have := linPt_mono (minx - buffer) (maxx + buffer) hx nx hki
      simp only at h1
      linarith
    · have := linPt_mono (minx - buffer) (maxx + buffer) hx nx
        (show i + 1 ≤ k from hik)
      simp only at h2
      linarith
  · rw [assign_zone_none_iff]
    intro z hz
    obtain ⟨i, j, hi, hj, rfl⟩ := (makeZones_mem_iff _ _ _ _ nx ny z).mp hz
    rw [← Bool.not_eq_true, mkZone_contains_iff]
    rintro ⟨-, -, h3, h4⟩
    rcases le_or_lt k j with hkj | hjk
    · have := linPt_mono (miny - buffer) (maxy + buffer) hy ny hkj
      simp only at h3
      linarith
    · have := linPt_mono (miny - buffer) (maxy + buffer) hy ny
        (show j + 1 ≤ k from hjk)
      simp only at h4
      linarith
  · obtain ⟨pre, z, post, heq, hc, hid, -⟩ := (assign_zone_some_iff p _ zid).mp h
    refine ⟨z, ?_, hid, hc⟩
    rw [heq]
    exact List.mem_append.mpr (Or.inr (List.mem_cons_self _ _))

/-- Witness for C10: in the 2×2 grid over `(0,0)-(2,2)`, the point
`(1, 0.5)` lies exactly on the shared edge between zones `z0_0` and `z1_0`
and is assigned to neither — `assign_zone` returns `none`. -/
theorem boundary_centroid_unassigned_example :
    assign_zone ((1 : ℚ), mkRat 1 2) (partition 0 0 2 2 0 2 2) = none := by
  have h := (boundary_centroid_unassigned 0 0 2 2 0 2 2 (by norm_num)
    (by norm_num)).1 1 (mkRat 1 2) (by norm_num)
  norm_num [linPt] at h
  rw [show (mkRat 1 2 : ℚ) = 1 / 2 by norm_num]
  exact h

end EcoFlow
